import Mathlib

/-!
# fluid-and-transparent

A shallow embedding of `main` in `fluid-and-transparent.c`: the parsing of the
window arguments, the per-frame input handling (the `SDL_PollEvent` drain and the
`SDL_GetKeyboardState` sample), the loop on `quit`, and the rectangle geometry.

`Square_scale`, `s`, `rw` and `rh` are C `float`s.  A `float` is embedded as the
rational number it denotes, and every `float` operation is the exact operation
followed by `f32`, rounding to the nearest binary32 value (24-bit significand, ties to
even): each operation is evaluated in the range and precision of `float`
(`FLT_EVAL_METHOD` 0), as on x86-64 and AArch64.  The exponent is left unbounded:
overflow to infinity and gradual underflow are outside the embedding.  Every quantity
the loop computes from an `int` window size and a scale in `[2, 20]` is zero or has
magnitude between `2^-5` and `2^32`, far inside the binary32 exponent range.

`window_info.h` and `rand.h` are not part of the sources.  The fields of `wI` are
taken to be `int`s, as the arguments of `SDL_CreateWindow` are, and the two values
that `rand_pm` returns in a frame are parameters `rw`, `rh` of the geometry.
-/

namespace FluidAndTransparent

/-! ## binary32 arithmetic -/

/-- Round a rational to the nearest integer, ties going to the even neighbour. -/
def rne (x : ℚ) : ℤ :=
  if x - ⌊x⌋ < 1 / 2 then ⌊x⌋
  else if 1 / 2 < x - ⌊x⌋ then ⌊x⌋ + 1
  else if ⌊x⌋ % 2 = 0 then ⌊x⌋ else ⌊x⌋ + 1

/-- The spacing of binary32 values in the binade of `x`: with `2^e ≤ |x| < 2^(e+1)`
the 24-bit significand leaves a unit in the last place of `2^(e-23)`. -/
def ulp (x : ℚ) : ℚ := (2 : ℚ) ^ (Int.log 2 |x| - 23)

/-- Round to the nearest binary32 value (round-to-nearest, ties-to-even). -/
def f32 (x : ℚ) : ℚ := rne (x / ulp x) * ulp x

/-- Conversion of a `float` to `int`: the fractional part is discarded
(truncation toward zero), as in the initialiser of `SDL_Rect r`. -/
def truncToInt (x : ℚ) : ℤ := if 0 ≤ x then ⌊x⌋ else ⌈x⌉

/-! ## Window arguments (`wI`, lines 82-86) -/

/-- The C locale `isspace`: space, `\t`, `\n`, `\v`, `\f`, `\r`. -/
def isspace (c : Char) : Bool :=
  c.toNat = 32 || (9 ≤ c.toNat && c.toNat ≤ 13)

/-- The value of the longest prefix of decimal digits, continuing from `acc`. -/
def digitsValue : List Char → ℕ → ℕ
  | [], acc => acc
  | c :: cs, acc =>
    if c.isDigit then digitsValue cs (10 * acc + (c.toNat - 48)) else acc

/-- The C library `atoi` on the characters of a string: leading white space is
skipped, one optional sign is read, then the longest run of decimal digits; no
digits give 0.  Values outside the range of `int` (undefined in C) are not wrapped. -/
def atoiChars (cs : List Char) : ℤ :=
  match cs.dropWhile isspace with
  | '-' :: rest => -(digitsValue rest 0 : ℤ)
  | '+' :: rest => (digitsValue rest 0 : ℤ)
  | rest => (digitsValue rest 0 : ℤ)

/-- The C library `atoi`. -/
def atoi (s : String) : ℤ := atoiChars s.toList

/-- The fields of `WindowInfo wI` that `main` sets from the command line. -/
structure WindowInfo where
  x : ℤ
  y : ℤ
  w : ℤ
  h : ℤ
  deriving DecidableEq, Repr

/-- Lines 82-86: `wI.x=50; wI.y=50; wI.w=600; wI.h=400;` and then
`if (argc>1) wI.x = atoi(argv[1]);` up to `argv[4]`.  `argc` is `argv.length`. -/
def parseArgs (argv : List String) : WindowInfo :=
  let wI0 : WindowInfo := { x := 50, y := 50, w := 600, h := 400 }
  let wI1 := if argv.length > 1 then { wI0 with x := atoi (argv.getD 1 "") } else wI0
  let wI2 := if argv.length > 2 then { wI1 with y := atoi (argv.getD 2 "") } else wI1
  let wI3 := if argv.length > 3 then { wI2 with w := atoi (argv.getD 3 "") } else wI2
  if argv.length > 4 then { wI3 with h := atoi (argv.getD 4 "") } else wI3

/-! ## Loop state and inputs -/

/-- The local enumeration `enum {POLL, FILT} mode`. -/
inductive Mode where
  | POLL
  | FILT
  deriving DecidableEq, Repr

/-- The key of a keyboard event (`e.key.keysym.sym`), as far as `main` tells keys
apart; the same names index the keyboard state (`SDL_SCANCODE_Q`, ...). -/
inductive Keycode where
  | SDLK_SPACE
  | SDLK_q
  | SDLK_s
  | SDLK_w
  | other
  deriving DecidableEq, Repr

/-- An event returned by `SDL_PollEvent`: `SDL_KEYDOWN` with its key, or any other
event type. -/
inductive Event where
  | keydown (sym : Keycode)
  | other
  deriving DecidableEq, Repr

/-- The entries of the array returned by `SDL_GetKeyboardState` that `main` reads,
and the entry of SPACE, which it never reads. -/
structure KeyboardState where
  SPACE : Bool
  Q : Bool
  W : Bool
  S : Bool
  deriving DecidableEq, Repr

/-- The variables that live across iterations of the loop. -/
structure State where
  Square_scale : ℚ
  mode : Mode
  quit : Bool
  deriving DecidableEq

/-- What one iteration of the loop receives: the events `SDL_PollEvent` hands out
until it returns 0, and the keyboard state seen after `SDL_PumpEvents`. -/
structure FrameInput where
  events : List Event
  keys : KeyboardState
  deriving DecidableEq

/-- A record of one statement acting on a key: the path that ran it (`POLL` for the
switch inside the event drain, `FILT` for the keyboard-state block), the key, and
`Square_scale` right after it. -/
structure Act where
  path : Mode
  key : Keycode
  scale : ℚ
  deriving DecidableEq

/-- Lines 115-118: `Square_scale = 10`, `mode = POLL`, `quit = false`. -/
def init : State := { Square_scale := 10, mode := Mode.POLL, quit := false }

/-- Lines 133-138: the inner `switch(mode)` of `case SDLK_SPACE`. -/
def toggle : Mode → Mode
  | Mode.POLL => Mode.FILT
  | Mode.FILT => Mode.POLL

/-- `Square_scale++; if (Square_scale>20) Square_scale=20;` (lines 148-150 and
176-177): the square gets smaller. -/
def decreaseSize (s : ℚ) : ℚ :=
  if f32 (s + 1) > 20 then 20 else f32 (s + 1)

/-- `Square_scale--; if (Square_scale<2) Square_scale=2;` (lines 153-155 and
171-172): the square gets bigger. -/
def increaseSize (s : ℚ) : ℚ :=
  if f32 (s - 1) < 2 then 2 else f32 (s - 1)

/-- Lines 128-160, the body of the `SDL_PollEvent` loop for one event: SPACE flips
the mode; then, if the mode is now `POLL`, `q`, `s` and `w` act. -/
def pollEvent (st : State) (e : Event) : State × List Act :=
  match e with
  | Event.other => (st, [])
  | Event.keydown sym =>
    let st1 : State :=
      match sym with
      | Keycode.SDLK_SPACE => { st with mode := toggle st.mode }
      | _ => st
    match st1.mode with
    | Mode.FILT => (st1, [])
    | Mode.POLL =>
      match sym with
      | Keycode.SDLK_q =>
        ({ st1 with quit := true }, [⟨Mode.POLL, Keycode.SDLK_q, st1.Square_scale⟩])
      | Keycode.SDLK_s =>
        ({ st1 with Square_scale := decreaseSize st1.Square_scale },
          [⟨Mode.POLL, Keycode.SDLK_s, decreaseSize st1.Square_scale⟩])
      | Keycode.SDLK_w =>
        ({ st1 with Square_scale := increaseSize st1.Square_scale },
          [⟨Mode.POLL, Keycode.SDLK_w, increaseSize st1.Square_scale⟩])
      | _ => (st1, [])

/-- Lines 126-161: `while( SDL_PollEvent(&e) )` over the queued events, in order. -/
def drain : State → List Event → State × List Act
  | st, [] => (st, [])
  | st, e :: es =>
    ((drain (pollEvent st e).1 es).1, (pollEvent st e).2 ++ (drain (pollEvent st e).1 es).2)

/-- Line 168: `if( k[SDL_SCANCODE_Q] ) quit=true;`. -/
def filterQ (st : State) (k : KeyboardState) : State × List Act :=
  if k.Q then ({ st with quit := true }, [⟨Mode.FILT, Keycode.SDLK_q, st.Square_scale⟩])
  else (st, [])

/-- Lines 169-173: `if( k[SDL_SCANCODE_W] )`, decrement and clamp at 2. -/
def filterW (st : State) (k : KeyboardState) : State × List Act :=
  if k.W then
    ({ st with Square_scale := increaseSize st.Square_scale },
      [⟨Mode.FILT, Keycode.SDLK_w, increaseSize st.Square_scale⟩])
  else (st, [])

/-- Lines 174-178: `if( k[SDL_SCANCODE_S] )`, increment and clamp at 20. -/
def filterS (st : State) (k : KeyboardState) : State × List Act :=
  if k.S then
    ({ st with Square_scale := decreaseSize st.Square_scale },
      [⟨Mode.FILT, Keycode.SDLK_s, decreaseSize st.Square_scale⟩])
  else (st, [])

/-- Lines 164-179: `if( mode == FILT )`, the keyboard state is sampled and Q, W, S
act in this order. -/
def filterKeys (st : State) (k : KeyboardState) : State × List Act :=
  match st.mode with
  | Mode.POLL => (st, [])
  | Mode.FILT =>
    ((filterS (filterW (filterQ st k).1 k).1 k).1,
      (filterQ st k).2 ++ (filterW (filterQ st k).1 k).2
        ++ (filterS (filterW (filterQ st k).1 k).1 k).2)

/-- The input handling of one iteration (lines 121-179): the drain, then the
keyboard sample. -/
def frame (st : State) (f : FrameInput) : State × List Act :=
  ((filterKeys (drain st f.events).1 f.keys).1,
    (drain st f.events).2 ++ (filterKeys (drain st f.events).1 f.keys).2)

/-- The result of running the loop: the final state, the acts in order, and the
number of iterations executed. -/
structure Outcome where
  state : State
  acts : List Act
  frames : ℕ
  deriving DecidableEq

/-- Lines 119-215: `while(quit == false)`, one `FrameInput` per iteration.  The
loop leaves as soon as `quit` is set; inputs left over are never looked at. -/
def mainLoop : State → List FrameInput → Outcome
  | st, [] => ⟨st, [], 0⟩
  | st, f :: fs =>
    if st.quit = false then
      ⟨(mainLoop (frame st f).1 fs).state,
        (frame st f).2 ++ (mainLoop (frame st f).1 fs).acts,
        (mainLoop (frame st f).1 fs).frames + 1⟩
    else ⟨st, [], 0⟩

/-! ## Rectangle geometry (lines 199-207) -/

/-- The `int` fields of `SDL_Rect`. -/
structure SDL_Rect where
  x : ℤ
  y : ℤ
  w : ℤ
  h : ℤ
  deriving DecidableEq, Repr

/-- Lines 202-207, the initialiser of `SDL_Rect r`, for window size `W`, `H`
(`wI.w`, `wI.h`), scale `s` and the `float` values `rw`, `rh` that `rand_pm`
produced.  An `int` operand is converted to `float`, each operation rounds, and
the result is truncated into the `int` field. -/
def rect (W H : ℤ) (s rw rh : ℚ) : SDL_Rect :=
  { x := truncToInt (f32 (f32 (f32 (f32 W - f32 (rw / 2)) * f32 (1 - f32 (1 / s))) / 2))
    y := truncToInt (f32 (f32 (f32 (f32 H - f32 (rh / 2)) * f32 (1 - f32 (1 / s))) / 2))
    w := truncToInt (f32 (f32 (f32 W + rw) / s))
    h := truncToInt (f32 (f32 (f32 H + rh) / s)) }

/-- Lines 200-201: the argument `wI.w/100` of `rand_pm`, an `int` division. -/
def jitterBound (W : ℤ) : ℤ := Int.tdiv W 100

/-! ## Derived notions used by the statements -/

/-- The number of SPACE key-down events in a queue. -/
def spaceDowns (evs : List Event) : ℕ := evs.count (Event.keydown Keycode.SDLK_SPACE)

/-- Some act of the list was run by path `p` on key `k`. -/
def ActsOn (p : Mode) (k : Keycode) (acts : List Act) : Prop :=
  ∃ a ∈ acts, a.path = p ∧ a.key = k

/-- In the frame `f` from `st`, no key is acted on both by the event drain and by
the keyboard sample. -/
def MutuallyExclusive (st : State) (f : FrameInput) : Prop :=
  ∀ k : Keycode, ¬ (ActsOn Mode.POLL k (frame st f).2 ∧ ActsOn Mode.FILT k (frame st f).2)

/-- The scale is one of the whole numbers 2, ..., 20. -/
def ScaleOk (s : ℚ) : Prop := ∃ n : ℕ, 2 ≤ n ∧ n ≤ 20 ∧ s = n

/-! ## Facts about the binary32 rounding -/

theorem rne_bounds (x : ℚ) : (rne x : ℚ) - 1 / 2 ≤ x ∧ x ≤ (rne x : ℚ) + 1 / 2 := by
  have h1 : ((⌊x⌋ : ℤ) : ℚ) ≤ x := Int.floor_le x
  have h2 : x < ((⌊x⌋ : ℤ) : ℚ) + 1 := Int.lt_floor_add_one x
  unfold rne
  split_ifs with a b c
  · constructor <;> linarith
  · push_cast; constructor <;> linarith
  · constructor <;> linarith
  · push_cast; constructor <;> linarith

theorem rne_eq_of_near (x : ℚ) (m : ℤ) (h1 : (m : ℚ) - 1 / 2 < x)
    (h2 : x < (m : ℚ) + 1 / 2) :
    rne x = m := by
  obtain ⟨b1, b2⟩ := rne_bounds x
  have h3 : ((rne x : ℤ) : ℚ) < (m : ℚ) + 1 := by linarith
  have h4 : (m : ℚ) < ((rne x : ℤ) : ℚ) + 1 := by linarith
  have h5 : rne x < m + 1 := by exact_mod_cast h3
  have h6 : m < rne x + 1 := by exact_mod_cast h4
  omega

theorem rne_intCast (z : ℤ) : rne (z : ℚ) = z :=
  rne_eq_of_near _ z (by linarith) (by linarith)

theorem rne_mono {x y : ℚ} (h : x ≤ y) : rne x ≤ rne y := by
  rcases eq_or_lt_of_le h with h0 | h0
  · rw [h0]
  · by_contra hc
    push_neg at hc
    have hc1 : rne y + 1 ≤ rne x := hc
    have hc2 : ((rne y : ℤ) : ℚ) + 1 ≤ ((rne x : ℤ) : ℚ) := by exact_mod_cast hc1
    have bx := (rne_bounds x).1
    have by1 := (rne_bounds y).2
    linarith

theorem log2_eq_of_bounds {x : ℚ} {e : ℤ} (h1 : (2 : ℚ) ^ e ≤ x)
    (h2 : x < (2 : ℚ) ^ (e + 1)) :
    Int.log 2 x = e := by
  have hx : 0 < x := lt_of_lt_of_le (by positivity) h1
  have a1 : e ≤ Int.log 2 x :=
    (Int.zpow_le_iff_le_log (by norm_num) hx).1 (by exact_mod_cast h1)
  have a2 : Int.log 2 x < e + 1 :=
    (Int.lt_zpow_iff_log_lt (by norm_num) hx).1 (by exact_mod_cast h2)
  omega

theorem two_zpow_add_nat (L : ℤ) (n : ℕ) :
    (2 : ℚ) ^ (L + (n : ℤ)) = (2 : ℚ) ^ n * (2 : ℚ) ^ L := by
  rw [zpow_add₀ (by norm_num), zpow_natCast, mul_comm]

theorem ulp_pos (x : ℚ) : 0 < ulp x := by unfold ulp; positivity

theorem ulp_of_bounds {x : ℚ} {e : ℤ} (h1 : (2 : ℚ) ^ (e + 23) ≤ x)
    (h2 : x < (2 : ℚ) ^ (e + 24)) :
    ulp x = (2 : ℚ) ^ e := by
  have hx : 0 < x := lt_of_lt_of_le (by positivity) h1
  have : Int.log 2 x = e + 23 :=
    log2_eq_of_bounds h1 (by rw [show e + 23 + 1 = e + 24 by ring]; exact h2)
  unfold ulp
  rw [abs_of_pos hx, this]
  congr 1; ring

/-- Evaluation by certificate: a value within half a unit of `m * 2^e`, inside the
binade whose unit in the last place is `2^e`, rounds to `m * 2^e`. -/
theorem f32_eq_of_near {x : ℚ} (m : ℤ) (e : ℤ) (hm2 : m < (2 : ℤ) ^ 24)
    (hx : (2 : ℚ) ^ (e + 23) ≤ x)
    (hlo : ((m : ℚ) - 1 / 2) * (2 : ℚ) ^ e < x)
    (hhi : x < ((m : ℚ) + 1 / 2) * (2 : ℚ) ^ e) :
    f32 x = (m : ℚ) * (2 : ℚ) ^ e := by
  have hp : (0 : ℚ) < (2 : ℚ) ^ e := by positivity
  have hm3 : (m : ℚ) + 1 ≤ (2 : ℚ) ^ (24 : ℕ) := by
    have : m + 1 ≤ (2 : ℤ) ^ 24 := hm2
    exact_mod_cast this
  have h24 : (2 : ℚ) ^ (e + 24) = (2 : ℚ) ^ (24 : ℕ) * (2 : ℚ) ^ e := by
    rw [zpow_add₀ (by norm_num), mul_comm]; norm_cast
  have hx2 : x < (2 : ℚ) ^ (e + 24) := by
    rw [h24]
    calc x < ((m : ℚ) + 1 / 2) * (2 : ℚ) ^ e := hhi
      _ ≤ (2 : ℚ) ^ (24 : ℕ) * (2 : ℚ) ^ e := by
        apply mul_le_mul_of_nonneg_right _ hp.le
        linarith
  have hu : ulp x = (2 : ℚ) ^ e := ulp_of_bounds hx hx2
  unfold f32
  rw [hu]
  congr 1
  norm_cast
  apply rne_eq_of_near
  · rw [lt_div_iff₀ hp]; exact hlo
  · rw [div_lt_iff₀ hp]; exact hhi

theorem f32_zero : f32 0 = 0 := by
  unfold f32; simp [rne]

theorem f32_representable (m : ℕ) (e : ℤ) (hm : m < 2 ^ 24) :
    f32 ((m : ℚ) * (2 : ℚ) ^ e) = (m : ℚ) * (2 : ℚ) ^ e := by
  rcases Nat.eq_zero_or_pos m with h0 | h0
  · subst h0; simp [f32_zero]
  have hp : (0 : ℚ) < (2 : ℚ) ^ e := by positivity
  have hx : (0 : ℚ) < (m : ℚ) * (2 : ℚ) ^ e := by positivity
  have hL1 : (2 : ℚ) ^ (Int.log 2 ((m : ℚ) * (2 : ℚ) ^ e)) ≤ (m : ℚ) * (2 : ℚ) ^ e := by
    have := Int.zpow_log_le_self (R := ℚ) (b := 2) (by norm_num) hx
    exact_mod_cast this
  have hu : ulp ((m : ℚ) * (2 : ℚ) ^ e) =
      (2 : ℚ) ^ (Int.log 2 ((m : ℚ) * (2 : ℚ) ^ e) - 23) := by
    unfold ulp; rw [abs_of_pos hx]
  unfold f32
  rw [hu]
  generalize Int.log 2 ((m : ℚ) * (2 : ℚ) ^ e) = L at hL1
  have hm3 : (m : ℚ) < (2 : ℚ) ^ (24 : ℕ) := by exact_mod_cast hm
  have hlt : (2 : ℚ) ^ L < (2 : ℚ) ^ (e + 24) := by
    calc (2 : ℚ) ^ L ≤ (m : ℚ) * (2 : ℚ) ^ e := hL1
      _ < (2 : ℚ) ^ (24 : ℕ) * (2 : ℚ) ^ e := mul_lt_mul_of_pos_right hm3 hp
      _ = (2 : ℚ) ^ (e + 24) := by
        rw [zpow_add₀ (by norm_num), mul_comm]; norm_cast
  have hk : L < e + 24 := (zpow_lt_zpow_iff_right₀ (by norm_num)).1 hlt
  obtain ⟨k, hk2⟩ : ∃ k : ℕ, e = (L - 23) + k := ⟨(e - (L - 23)).toNat, by omega⟩
  have hp2 : (0 : ℚ) < (2 : ℚ) ^ (L - 23) := by positivity
  have he : (2 : ℚ) ^ e = (2 : ℚ) ^ (L - 23) * (2 : ℚ) ^ k := by
    rw [hk2, zpow_add₀ (by norm_num)]; norm_cast
  have hq : (m : ℚ) * (2 : ℚ) ^ e / (2 : ℚ) ^ (L - 23) =
      (((m * 2 ^ k : ℕ) : ℤ) : ℚ) := by
    rw [he]
    field_simp
    ring
  rw [hq, rne_intCast, he]
  push_cast
  ring

theorem f32_natCast (n : ℕ) (h : n < 2 ^ 24) : f32 (n : ℚ) = n := by
  have := f32_representable n 0 h
  simpa using this

theorem scaled_bounds {x : ℚ} (hx : 0 < x) :
    (2 : ℚ) ^ (23 : ℕ) ≤ x / ulp x ∧ x / ulp x < (2 : ℚ) ^ (24 : ℕ) := by
  have h1 : (2 : ℚ) ^ (Int.log 2 x) ≤ x := by
    have := Int.zpow_log_le_self (R := ℚ) (b := 2) (by norm_num) hx
    exact_mod_cast this
  have h2 : x < (2 : ℚ) ^ (Int.log 2 x + 1) := by
    have := Int.lt_zpow_succ_log_self (R := ℚ) (b := 2) (by norm_num) x
    exact_mod_cast this
  have hu : ulp x = (2 : ℚ) ^ (Int.log 2 x - 23) := by
    unfold ulp; rw [abs_of_pos hx]
  rw [hu]
  generalize Int.log 2 x = L at h1 h2
  have hp2 : (0 : ℚ) < (2 : ℚ) ^ (L - 23) := by positivity
  have e1 : (2 : ℚ) ^ L = (2 : ℚ) ^ (23 : ℕ) * (2 : ℚ) ^ (L - 23) := by
    have := two_zpow_add_nat (L - 23) 23
    rwa [show L - 23 + ((23 : ℕ) : ℤ) = L by push_cast; ring] at this
  have e2 : (2 : ℚ) ^ (L + 1) = (2 : ℚ) ^ (24 : ℕ) * (2 : ℚ) ^ (L - 23) := by
    have := two_zpow_add_nat (L - 23) 24
    rwa [show L - 23 + ((24 : ℕ) : ℤ) = L + 1 by push_cast; ring] at this
  constructor
  · rw [le_div_iff₀ hp2, ← e1]; exact h1
  · rw [div_lt_iff₀ hp2, ← e2]; exact h2

theorem f32_nonneg {x : ℚ} (hx : 0 ≤ x) : 0 ≤ f32 x := by
  unfold f32
  have hu := ulp_pos x
  have : (0 : ℤ) ≤ rne (x / ulp x) := by
    have := rne_mono (show (0 : ℚ) ≤ x / ulp x by positivity)
    have h0 : rne (0 : ℚ) = 0 := by simpa using rne_intCast 0
    omega
  have h2 : (0 : ℚ) ≤ (rne (x / ulp x) : ℚ) := by exact_mod_cast this
  positivity

theorem zpow_log_le_f32 {x : ℚ} (hx : 0 < x) : (2 : ℚ) ^ (Int.log 2 x) ≤ f32 x := by
  obtain ⟨h1, _⟩ := scaled_bounds hx
  have hu : ulp x = (2 : ℚ) ^ (Int.log 2 x - 23) := by
    unfold ulp; rw [abs_of_pos hx]
  have hr : ((2 : ℤ) ^ (23 : ℕ) : ℤ) ≤ rne (x / ulp x) := by
    have := rne_mono h1
    have h0 : rne ((2 : ℚ) ^ (23 : ℕ)) = (2 : ℤ) ^ (23 : ℕ) := by
      have := rne_intCast ((2 : ℤ) ^ (23 : ℕ)); simpa using this
    omega
  have hr2 : ((2 : ℚ) ^ (23 : ℕ)) ≤ (rne (x / ulp x) : ℚ) := by exact_mod_cast hr
  unfold f32
  have hp2 : (0 : ℚ) < ulp x := ulp_pos x
  calc (2 : ℚ) ^ (Int.log 2 x) = (2 : ℚ) ^ (23 : ℕ) * ulp x := by
        rw [hu, ← two_zpow_add_nat]
        congr 1; push_cast; ring
    _ ≤ (rne (x / ulp x) : ℚ) * ulp x := mul_le_mul_of_nonneg_right hr2 hp2.le

theorem f32_le_zpow_succ_log {x : ℚ} (hx : 0 < x) : f32 x ≤ (2 : ℚ) ^ (Int.log 2 x + 1) := by
  obtain ⟨_, h1⟩ := scaled_bounds hx
  have hu : ulp x = (2 : ℚ) ^ (Int.log 2 x - 23) := by
    unfold ulp; rw [abs_of_pos hx]
  have hr : rne (x / ulp x) ≤ ((2 : ℤ) ^ (24 : ℕ) : ℤ) := by
    have := rne_mono h1.le
    have h0 : rne ((2 : ℚ) ^ (24 : ℕ)) = (2 : ℤ) ^ (24 : ℕ) := by
      have := rne_intCast ((2 : ℤ) ^ (24 : ℕ)); simpa using this
    omega
  have hr2 : (rne (x / ulp x) : ℚ) ≤ ((2 : ℚ) ^ (24 : ℕ)) := by exact_mod_cast hr
  unfold f32
  have hp2 : (0 : ℚ) < ulp x := ulp_pos x
  calc (rne (x / ulp x) : ℚ) * ulp x ≤ (2 : ℚ) ^ (24 : ℕ) * ulp x :=
        mul_le_mul_of_nonneg_right hr2 hp2.le
    _ = (2 : ℚ) ^ (Int.log 2 x + 1) := by
        rw [hu, ← two_zpow_add_nat]
        congr 1; push_cast; ring

theorem f32_mono {x y : ℚ} (hx : 0 ≤ x) (h : x ≤ y) : f32 x ≤ f32 y := by
  rcases eq_or_lt_of_le hx with h0 | h0
  · rw [← h0, f32_zero]; exact f32_nonneg (hx.trans h)
  have hy : 0 < y := lt_of_lt_of_le h0 h
  have hl : Int.log 2 x ≤ Int.log 2 y := Int.log_mono_right h0 h
  rcases eq_or_lt_of_le hl with e | e
  · have hu : ulp x = ulp y := by
      unfold ulp; rw [abs_of_pos h0, abs_of_pos hy, e]
    unfold f32
    rw [hu]
    have hp2 : (0 : ℚ) < ulp y := ulp_pos y
    have : rne (x / ulp y) ≤ rne (y / ulp y) := rne_mono (by gcongr)
    have h2 : (rne (x / ulp y) : ℚ) ≤ (rne (y / ulp y) : ℚ) := by exact_mod_cast this
    exact mul_le_mul_of_nonneg_right h2 hp2.le
  · calc f32 x ≤ (2 : ℚ) ^ (Int.log 2 x + 1) := f32_le_zpow_succ_log h0
      _ ≤ (2 : ℚ) ^ (Int.log 2 y) := by
        apply zpow_le_zpow_right₀ (by norm_num); omega
      _ ≤ f32 y := zpow_log_le_f32 hy

/-! ## The two size adjustments -/

theorem decreaseSize_natCast (n : ℕ) (h : n + 1 < 2 ^ 24) :
    decreaseSize (n : ℚ) = ((min (n + 1) 20 : ℕ) : ℚ) := by
  have h1 : f32 ((n : ℚ) + 1) = ((n + 1 : ℕ) : ℚ) := by
    have := f32_natCast (n + 1) h
    push_cast at this ⊢
    exact this
  unfold decreaseSize
  rw [h1]
  rcases Nat.lt_or_ge 20 (n + 1) with c | c
  · have c2 : ((n + 1 : ℕ) : ℚ) > 20 := by exact_mod_cast c
    rw [if_pos c2, Nat.min_eq_right c.le]
    norm_num
  · have c2 : ¬ ((n + 1 : ℕ) : ℚ) > 20 := by
      push_neg; exact_mod_cast c
    rw [if_neg c2, Nat.min_eq_left c]

theorem increaseSize_natCast (n : ℕ) (h0 : 1 ≤ n) (h : n < 2 ^ 24) :
    increaseSize (n : ℚ) = ((max (n - 1) 2 : ℕ) : ℚ) := by
  have h1 : f32 ((n : ℚ) - 1) = ((n - 1 : ℕ) : ℚ) := by
    have := f32_natCast (n - 1) (by omega)
    rw [Nat.cast_sub h0] at this ⊢
    push_cast at this ⊢
    exact this
  unfold increaseSize
  rw [h1]
  rcases Nat.lt_or_ge (n - 1) 2 with c | c
  · have c2 : ((n - 1 : ℕ) : ℚ) < 2 := by exact_mod_cast c
    rw [if_pos c2, Nat.max_eq_right c.le]
    norm_num
  · have c2 : ¬ ((n - 1 : ℕ) : ℚ) < 2 := by
      push_neg; exact_mod_cast c
    rw [if_neg c2, Nat.max_eq_left c]

theorem ScaleOk.bounds {s : ℚ} (h : ScaleOk s) : 2 ≤ s ∧ s ≤ 20 := by
  obtain ⟨n, h1, h2, rfl⟩ := h
  constructor
  · exact_mod_cast h1
  · exact_mod_cast h2

theorem scaleOk_decreaseSize {s : ℚ} (h : ScaleOk s) : ScaleOk (decreaseSize s) := by
  obtain ⟨n, h1, h2, rfl⟩ := h
  refine ⟨min (n + 1) 20, ?_, ?_, decreaseSize_natCast n (by omega)⟩
  · omega
  · omega

theorem scaleOk_increaseSize {s : ℚ} (h : ScaleOk s) : ScaleOk (increaseSize s) := by
  obtain ⟨n, h1, h2, rfl⟩ := h
  refine ⟨max (n - 1) 2, ?_, ?_, increaseSize_natCast n (by omega) (by omega)⟩
  · omega
  · omega

theorem scaleOk_init : ScaleOk init.Square_scale :=
  ⟨10, by norm_num, by norm_num, by simp [init]⟩

/-! ## The scale stays a whole number in `[2, 20]` -/

theorem pollEvent_scaleOk (st : State) (e : Event) (h : ScaleOk st.Square_scale) :
    ScaleOk (pollEvent st e).1.Square_scale ∧ ∀ a ∈ (pollEvent st e).2, ScaleOk a.scale := by
  have hd := scaleOk_decreaseSize h
  have hi := scaleOk_increaseSize h
  cases e with
  | other => simp [pollEvent, h]
  | keydown sym =>
    cases sym <;> cases hm : st.mode <;> simp [pollEvent, toggle, hm, h, hd, hi]

theorem drain_scaleOk (evs : List Event) (st : State) (h : ScaleOk st.Square_scale) :
    ScaleOk (drain st evs).1.Square_scale ∧ ∀ a ∈ (drain st evs).2, ScaleOk a.scale := by
  induction evs generalizing st with
  | nil => simp [drain, h]
  | cons e es ih =>
    obtain ⟨p1, p2⟩ := pollEvent_scaleOk st e h
    obtain ⟨q1, q2⟩ := ih (pollEvent st e).1 p1
    refine ⟨by simpa [drain] using q1, ?_⟩
    intro a ha
    simp only [drain, List.mem_append] at ha
    rcases ha with ha | ha
    · exact p2 a ha
    · exact q2 a ha

theorem filterKeys_scaleOk (st : State) (k : KeyboardState) (h : ScaleOk st.Square_scale) :
    ScaleOk (filterKeys st k).1.Square_scale ∧ ∀ a ∈ (filterKeys st k).2, ScaleOk a.scale := by
  have hi := scaleOk_increaseSize h
  have hd := scaleOk_decreaseSize h
  have hid := scaleOk_decreaseSize hi
  cases hm : st.mode <;> cases hq : k.Q <;> cases hw : k.W <;> cases hs : k.S <;>
    simp [filterKeys, filterQ, filterW, filterS, hm, hq, hw, hs, h, hi, hd, hid]

theorem frame_scaleOk (st : State) (f : FrameInput) (h : ScaleOk st.Square_scale) :
    ScaleOk (frame st f).1.Square_scale ∧ ∀ a ∈ (frame st f).2, ScaleOk a.scale := by
  obtain ⟨p1, p2⟩ := drain_scaleOk f.events st h
  obtain ⟨q1, q2⟩ := filterKeys_scaleOk (drain st f.events).1 f.keys p1
  refine ⟨q1, ?_⟩
  intro a ha
  simp only [frame, List.mem_append] at ha
  rcases ha with ha | ha
  · exact p2 a ha
  · exact q2 a ha

theorem mainLoop_scaleOk (fs : List FrameInput) (st : State) (h : ScaleOk st.Square_scale) :
    ScaleOk (mainLoop st fs).state.Square_scale ∧
      ∀ a ∈ (mainLoop st fs).acts, ScaleOk a.scale := by
  induction fs generalizing st with
  | nil => simp [mainLoop, h]
  | cons f fs ih =>
    obtain ⟨p1, p2⟩ := frame_scaleOk st f h
    obtain ⟨q1, q2⟩ := ih (frame st f).1 p1
    cases hq : st.quit
    · refine ⟨by simpa [mainLoop, hq] using q1, ?_⟩
      intro a ha
      simp only [mainLoop, hq, if_true, List.mem_append] at ha
      rcases ha with ha | ha
      · exact p2 a ha
      · exact q2 a ha
    · simp [mainLoop, hq, h]

/-- C1: from the initial state (scale 10, mode Poll), whatever the sequence of frame
inputs, the scale is within `[2, 20]` right after every size adjustment of the Poll
path and of the Filter path (every recorded act), and at the end of every frame
(after the first `n` inputs, for every `n`). -/
theorem C1_scale_within_bounds (frames : List FrameInput) (n : ℕ) :
    (2 ≤ (mainLoop init (frames.take n)).state.Square_scale ∧
      (mainLoop init (frames.take n)).state.Square_scale ≤ 20) ∧
    ∀ a ∈ (mainLoop init (frames.take n)).acts, 2 ≤ a.scale ∧ a.scale ≤ 20 := by
  obtain ⟨p1, p2⟩ := mainLoop_scaleOk (frames.take n) init scaleOk_init
  exact ⟨p1.bounds, fun a ha => (p2 a ha).bounds⟩

/-! ## The mode -/

theorem pollEvent_mode (st : State) (e : Event) :
    (pollEvent st e).1.mode =
      if e = Event.keydown Keycode.SDLK_SPACE then toggle st.mode else st.mode := by
  cases e with
  | other => simp [pollEvent]
  | keydown sym => cases sym <;> cases hm : st.mode <;> simp [pollEvent, toggle, hm]

theorem drain_mode (evs : List Event) (st : State) :
    (drain st evs).1.mode = toggle^[spaceDowns evs] st.mode := by
  induction evs generalizing st with
  | nil => simp [drain, spaceDowns]
  | cons e es ih =>
    simp only [drain, ih, pollEvent_mode, spaceDowns, List.count_cons]
    by_cases he : e = Event.keydown Keycode.SDLK_SPACE
    · simp [he, Function.iterate_succ_apply]
    · simp [he]

theorem filterKeys_mode (st : State) (k : KeyboardState) :
    (filterKeys st k).1.mode = st.mode := by
  cases hm : st.mode <;> cases hq : k.Q <;> cases hw : k.W <;> cases hs : k.S <;>
    simp [filterKeys, filterQ, filterW, filterS, hm, hq, hw, hs]

theorem frame_mode (st : State) (f : FrameInput) :
    (frame st f).1.mode = toggle^[spaceDowns f.events] st.mode := by
  simp [frame, filterKeys_mode, drain_mode]

theorem toggle_toggle (m : Mode) : toggle (toggle m) = m := by
  cases m <;> rfl

theorem toggle_ne (m : Mode) : toggle m ≠ m := by
  cases m <;> simp [toggle]

theorem toggle_iterate (n : ℕ) (m : Mode) :
    toggle^[n] m = if Even n then m else toggle m := by
  induction n with
  | zero => simp
  | succ k ih =>
    rw [Function.iterate_succ_apply', ih]
    by_cases hk : Even k
    · have : ¬ Even (k + 1) := by
        rw [Nat.even_add_one]; simpa using hk
      simp [hk, this]
    · have : Even (k + 1) := by
        rw [Nat.even_add_one]; exact hk
      simp [hk, this, toggle_toggle]

/-- C2: after one frame the mode is the starting mode flipped once per SPACE
key-down event of the queue, so it differs from the starting mode exactly when their
number is odd, and it is the same for any two keyboard states (SPACE held or not). -/
theorem C2_mode_toggles_per_space_down (st : State) (evs : List Event)
    (keys keys2 : KeyboardState) :
    (frame st ⟨evs, keys⟩).1.mode = toggle^[spaceDowns evs] st.mode ∧
    ((frame st ⟨evs, keys⟩).1.mode ≠ st.mode ↔ Odd (spaceDowns evs)) ∧
    (frame st ⟨evs, keys2⟩).1.mode = (frame st ⟨evs, keys⟩).1.mode := by
  refine ⟨frame_mode st ⟨evs, keys⟩, ?_, ?_⟩
  · rw [frame_mode, toggle_iterate]
    by_cases hk : Even (spaceDowns evs)
    · simp [hk]
    · simp [hk, toggle_ne, Nat.not_even_iff_odd.mp hk]
  · rw [frame_mode, frame_mode]

/-! ## Frames without a SPACE key-down -/

theorem pollEvent_filt (st : State) (e : Event) (hm : st.mode = Mode.FILT)
    (he : e ≠ Event.keydown Keycode.SDLK_SPACE) : pollEvent st e = (st, []) := by
  cases e with
  | other => simp [pollEvent]
  | keydown sym => cases sym <;> simp_all [pollEvent]

theorem spaceDowns_cons_eq_zero {e : Event} {es : List Event}
    (h : spaceDowns (e :: es) = 0) : e ≠ Event.keydown Keycode.SDLK_SPACE ∧ spaceDowns es = 0 := by
  unfold spaceDowns at *
  rw [List.count_eq_zero] at h ⊢
  constructor
  · intro he; exact h (by simp [he])
  · intro hmem; exact h (List.mem_cons_of_mem _ hmem)

theorem drain_filt (evs : List Event) (st : State) (hm : st.mode = Mode.FILT)
    (h : spaceDowns evs = 0) : drain st evs = (st, []) := by
  induction evs with
  | nil => simp [drain]
  | cons e es ih =>
    obtain ⟨h1, h2⟩ := spaceDowns_cons_eq_zero h
    simp [drain, pollEvent_filt st e hm h1, ih h2]

/-- C8: a frame that starts in Filter mode, has no SPACE key-down in its queue, and
finds neither W nor S held leaves the scale as it was, whatever else is queued
(W or S key-downs included) and whether or not Q is held. -/
theorem C8_release_stops_change (st : State) (f : FrameInput) (hm : st.mode = Mode.FILT)
    (hsp : spaceDowns f.events = 0) (hW : f.keys.W = false) (hS : f.keys.S = false) :
    (frame st f).1.Square_scale = st.Square_scale := by
  cases hq : f.keys.Q <;>
    simp [frame, drain_filt f.events st hm hsp, filterKeys, filterQ, filterW, filterS, hm, hq,
      hW, hS]

/-- A frame where C8 applies: Filter mode at scale 7, a W and an S key-down queued,
Q held, W and S released. -/
theorem C8_release_stops_change_witness :
    (frame ⟨7, Mode.FILT, false⟩
      ⟨[Event.keydown Keycode.SDLK_w, Event.other, Event.keydown Keycode.SDLK_s],
        ⟨true, true, false, false⟩⟩).1.Square_scale = 7 :=
  C8_release_stops_change ⟨7, Mode.FILT, false⟩
    ⟨[Event.keydown Keycode.SDLK_w, Event.other, Event.keydown Keycode.SDLK_s],
      ⟨true, true, false, false⟩⟩ rfl (by decide) rfl rfl

/-! ## The quit flag -/

theorem pollEvent_quit (st : State) (e : Event) (h : st.quit = true) :
    (pollEvent st e).1.quit = true := by
  cases e with
  | other => simp [pollEvent, h]
  | keydown sym => cases sym <;> cases hm : st.mode <;> simp [pollEvent, toggle, hm, h]

theorem drain_quit (evs : List Event) (st : State) (h : st.quit = true) :
    (drain st evs).1.quit = true := by
  induction evs generalizing st with
  | nil => simp [drain, h]
  | cons e es ih => simpa [drain] using ih _ (pollEvent_quit st e h)

theorem filterKeys_quit (st : State) (k : KeyboardState) (h : st.quit = true) :
    (filterKeys st k).1.quit = true := by
  cases hm : st.mode <;> cases hq : k.Q <;> cases hw : k.W <;> cases hs : k.S <;>
    simp [filterKeys, filterQ, filterW, filterS, hm, hq, hw, hs, h]

theorem filterKeys_quit_of_held (st : State) (k : KeyboardState) (hm : st.mode = Mode.FILT)
    (hq : k.Q = true) : (filterKeys st k).1.quit = true := by
  cases hw : k.W <;> cases hs : k.S <;>
    simp [filterKeys, filterQ, filterW, filterS, hm, hq, hw, hs]

theorem drain_append_state (pre post : List Event) (st : State) :
    (drain st (pre ++ post)).1 = (drain (drain st pre).1 post).1 := by
  induction pre generalizing st with
  | nil => simp [drain]
  | cons e es ih => simp [drain, ih]

theorem pollEvent_q_of_poll (st : State) (hm : st.mode = Mode.POLL) :
    (pollEvent st (Event.keydown Keycode.SDLK_q)).1.quit = true := by
  simp [pollEvent, hm]

/-- C4: in a frame that the loop executes (`quit` is false on entry), if a Q
key-down is processed while the mode is Poll, or the mode is Filter after the drain
and Q is held, then `quit` is set at the end of the frame and the loop stops there:
this frame is the only one executed, whatever inputs would follow. -/
theorem C4_quit_within_one_frame (st : State) (f : FrameInput) (rest : List FrameInput)
    (hrun : st.quit = false)
    (h : (∃ pre post, f.events = pre ++ Event.keydown Keycode.SDLK_q :: post ∧
            (drain st pre).1.mode = Mode.POLL) ∨
         ((drain st f.events).1.mode = Mode.FILT ∧ f.keys.Q = true)) :
    (frame st f).1.quit = true ∧
    mainLoop st (f :: rest) = ⟨(frame st f).1, (frame st f).2, 1⟩ ∧
    (mainLoop (frame st f).1 rest).frames = 0 := by
  have hq : (frame st f).1.quit = true := by
    rcases h with ⟨pre, post, he, hm⟩ | ⟨hm, hk⟩
    · apply filterKeys_quit
      rw [he, drain_append_state]
      simp only [drain]
      exact drain_quit _ _ (pollEvent_q_of_poll _ hm)
    · exact filterKeys_quit_of_held _ _ hm hk
  have hstop : mainLoop (frame st f).1 rest = ⟨(frame st f).1, [], 0⟩ := by
    cases rest with
    | nil => simp [mainLoop]
    | cons g gs => simp [mainLoop, hq]
  refine ⟨hq, ?_, ?_⟩
  · simp [mainLoop, hrun, hstop]
  · rw [hstop]

/-- A frame where C4 applies through the Poll path: from the initial state, a Q
key-down is queued after another event. -/
theorem C4_quit_within_one_frame_witness :
    (frame init ⟨[Event.other, Event.keydown Keycode.SDLK_q], ⟨false, false, false, false⟩⟩).1.quit
        = true ∧
    mainLoop init [⟨[Event.other, Event.keydown Keycode.SDLK_q], ⟨false, false, false, false⟩⟩,
        ⟨[Event.keydown Keycode.SDLK_s], ⟨false, false, false, false⟩⟩] =
      ⟨(frame init
          ⟨[Event.other, Event.keydown Keycode.SDLK_q], ⟨false, false, false, false⟩⟩).1,
        (frame init
          ⟨[Event.other, Event.keydown Keycode.SDLK_q], ⟨false, false, false, false⟩⟩).2, 1⟩ ∧
    (mainLoop
        (frame init
          ⟨[Event.other, Event.keydown Keycode.SDLK_q], ⟨false, false, false, false⟩⟩).1
        [⟨[Event.keydown Keycode.SDLK_s], ⟨false, false, false, false⟩⟩]).frames = 0 :=
  C4_quit_within_one_frame init
    ⟨[Event.other, Event.keydown Keycode.SDLK_q], ⟨false, false, false, false⟩⟩
    [⟨[Event.keydown Keycode.SDLK_s], ⟨false, false, false, false⟩⟩] rfl
    (Or.inl ⟨[Event.other], [], rfl, by simp [drain, pollEvent, init]⟩)

/-! ## Which path acts -/

theorem pollEvent_acts_path (st : State) (e : Event) :
    ∀ a ∈ (pollEvent st e).2, a.path = Mode.POLL := by
  cases e with
  | other => simp [pollEvent]
  | keydown sym => cases sym <;> cases hm : st.mode <;> simp [pollEvent, toggle, hm]

theorem drain_acts_path (evs : List Event) (st : State) :
    ∀ a ∈ (drain st evs).2, a.path = Mode.POLL := by
  induction evs generalizing st with
  | nil => simp [drain]
  | cons e es ih =>
    intro a ha
    simp only [drain, List.mem_append] at ha
    rcases ha with ha | ha
    · exact pollEvent_acts_path st e a ha
    · exact ih _ a ha

theorem filterKeys_acts_path (st : State) (k : KeyboardState) :
    ∀ a ∈ (filterKeys st k).2, a.path = Mode.FILT := by
  cases hm : st.mode <;> cases hq : k.Q <;> cases hw : k.W <;> cases hs : k.S <;>
    simp [filterKeys, filterQ, filterW, filterS, hm, hq, hw, hs]

theorem filterKeys_poll (st : State) (k : KeyboardState) (hm : st.mode = Mode.POLL) :
    filterKeys st k = (st, []) := by
  simp [filterKeys, hm]

/-- C3, as the code has it: in a frame whose queue holds no SPACE key-down the mode
is the same throughout, and then no key is acted on both by the event drain and by
the keyboard sample. -/
theorem C3_exclusive_without_space_down (st : State) (f : FrameInput)
    (hsp : spaceDowns f.events = 0) : MutuallyExclusive st f := by
  intro k ⟨⟨a, ha, hap, _⟩, ⟨b, hb, hbp, _⟩⟩
  cases hm : st.mode with
  | POLL =>
    have hd : (drain st f.events).1.mode = Mode.POLL := by
      rw [drain_mode, hsp]; simpa using hm
    simp only [frame, filterKeys_poll _ f.keys hd, List.append_nil] at hb
    have := drain_acts_path _ _ b hb
    rw [this] at hbp
    exact absurd hbp (by decide)
  | FILT =>
    simp only [frame, drain_filt f.events st hm hsp, List.nil_append] at ha
    have := filterKeys_acts_path _ _ a ha
    rw [this] at hap
    exact absurd hap (by decide)

/-- A frame where the amended C3 applies: W key-downs queued and W held, from the
initial state. -/
theorem C3_exclusive_without_space_down_witness :
    MutuallyExclusive init
      ⟨[Event.keydown Keycode.SDLK_w, Event.keydown Keycode.SDLK_w],
        ⟨false, false, true, false⟩⟩ :=
  C3_exclusive_without_space_down init
    ⟨[Event.keydown Keycode.SDLK_w, Event.keydown Keycode.SDLK_w],
      ⟨false, false, true, false⟩⟩ (by decide)

/-- C3 fails as stated: from the initial state, with a W key-down followed by a
SPACE key-down in the queue and W held, the drain acts on W in Poll mode (scale 9),
the toggle makes the mode Filter, and the keyboard sample acts on W again (scale 8). -/
theorem C3_counterexample :
    (frame init ⟨[Event.keydown Keycode.SDLK_w, Event.keydown Keycode.SDLK_SPACE],
        ⟨false, false, true, false⟩⟩).2 =
      [⟨Mode.POLL, Keycode.SDLK_w, 9⟩, ⟨Mode.FILT, Keycode.SDLK_w, 8⟩] ∧
    ¬ MutuallyExclusive init
      ⟨[Event.keydown Keycode.SDLK_w, Event.keydown Keycode.SDLK_SPACE],
        ⟨false, false, true, false⟩⟩ := by
  have h10 : increaseSize 10 = 9 := by
    have := increaseSize_natCast 10 (by norm_num) (by norm_num)
    norm_num at this; exact this
  have h9 : increaseSize 9 = 8 := by
    have := increaseSize_natCast 9 (by norm_num) (by norm_num)
    norm_num at this; exact this
  have hacts : (frame init ⟨[Event.keydown Keycode.SDLK_w, Event.keydown Keycode.SDLK_SPACE],
        ⟨false, false, true, false⟩⟩).2 =
      [⟨Mode.POLL, Keycode.SDLK_w, 9⟩, ⟨Mode.FILT, Keycode.SDLK_w, 8⟩] := by
    simp [frame, drain, pollEvent, filterKeys, filterQ, filterW, filterS, toggle, init, h10, h9]
  refine ⟨hacts, ?_⟩
  intro h
  apply h Keycode.SDLK_w
  rw [hacts]
  exact ⟨⟨⟨Mode.POLL, Keycode.SDLK_w, 9⟩, by simp, rfl, rfl⟩,
    ⟨⟨Mode.FILT, Keycode.SDLK_w, 8⟩, by simp, rfl, rfl⟩⟩

/-! ## Adjusting at the clamp -/

theorem decreaseSize_twenty : decreaseSize 20 = 20 := by
  have := decreaseSize_natCast 20 (by norm_num)
  norm_num at this; exact this

theorem increaseSize_two : increaseSize 2 = 2 := by
  have := increaseSize_natCast 2 (by norm_num) (by norm_num)
  norm_num at this; exact this

theorem drain_replicate_s_at_twenty (n : ℕ) (q : Bool) :
    drain ⟨20, Mode.POLL, q⟩ (List.replicate n (Event.keydown Keycode.SDLK_s)) =
      (⟨20, Mode.POLL, q⟩, List.replicate n ⟨Mode.POLL, Keycode.SDLK_s, 20⟩) := by
  induction n with
  | zero => simp [drain]
  | succ k ih =>
    have hp : pollEvent ⟨20, Mode.POLL, q⟩ (Event.keydown Keycode.SDLK_s) =
        (⟨20, Mode.POLL, q⟩, [⟨Mode.POLL, Keycode.SDLK_s, 20⟩]) := by
      simp [pollEvent, decreaseSize_twenty]
    simp [List.replicate_succ, drain, hp, ih]

theorem drain_replicate_w_at_two (n : ℕ) (q : Bool) :
    drain ⟨2, Mode.POLL, q⟩ (List.replicate n (Event.keydown Keycode.SDLK_w)) =
      (⟨2, Mode.POLL, q⟩, List.replicate n ⟨Mode.POLL, Keycode.SDLK_w, 2⟩) := by
  induction n with
  | zero => simp [drain]
  | succ k ih =>
    have hp : pollEvent ⟨2, Mode.POLL, q⟩ (Event.keydown Keycode.SDLK_w) =
        (⟨2, Mode.POLL, q⟩, [⟨Mode.POLL, Keycode.SDLK_w, 2⟩]) := by
      simp [pollEvent, increaseSize_two]
    simp [List.replicate_succ, drain, hp, ih]

theorem mainLoop_s_held_at_twenty (fs : List FrameInput)
    (h : ∀ f ∈ fs, spaceDowns f.events = 0 ∧
      f.keys.S = true ∧ f.keys.W = false ∧ f.keys.Q = false) :
    mainLoop ⟨20, Mode.FILT, false⟩ fs =
      ⟨⟨20, Mode.FILT, false⟩, List.replicate fs.length ⟨Mode.FILT, Keycode.SDLK_s, 20⟩,
        fs.length⟩ := by
  induction fs with
  | nil => simp [mainLoop]
  | cons f fs ih =>
    obtain ⟨h1, h2, h3, h4⟩ := h f (List.mem_cons_self _ _)
    have hf : frame ⟨20, Mode.FILT, false⟩ f =
        (⟨20, Mode.FILT, false⟩, [⟨Mode.FILT, Keycode.SDLK_s, 20⟩]) := by
      simp [frame, drain_filt f.events ⟨20, Mode.FILT, false⟩ rfl h1, filterKeys, filterQ,
        filterW, filterS, h2, h3, h4, decreaseSize_twenty]
    have ih2 := ih (fun g hg => h g (List.mem_cons_of_mem _ hg))
    simp [mainLoop, hf, ih2, List.replicate_succ]

theorem mainLoop_w_held_at_two (fs : List FrameInput)
    (h : ∀ f ∈ fs, spaceDowns f.events = 0 ∧
      f.keys.W = true ∧ f.keys.S = false ∧ f.keys.Q = false) :
    mainLoop ⟨2, Mode.FILT, false⟩ fs =
      ⟨⟨2, Mode.FILT, false⟩, List.replicate fs.length ⟨Mode.FILT, Keycode.SDLK_w, 2⟩,
        fs.length⟩ := by
  induction fs with
  | nil => simp [mainLoop]
  | cons f fs ih =>
    obtain ⟨h1, h2, h3, h4⟩ := h f (List.mem_cons_self _ _)
    have hf : frame ⟨2, Mode.FILT, false⟩ f =
        (⟨2, Mode.FILT, false⟩, [⟨Mode.FILT, Keycode.SDLK_w, 2⟩]) := by
      simp [frame, drain_filt f.events ⟨2, Mode.FILT, false⟩ rfl h1, filterKeys, filterQ,
        filterW, filterS, h2, h3, h4, increaseSize_two]
    have ih2 := ih (fun g hg => h g (List.mem_cons_of_mem _ hg))
    simp [mainLoop, hf, ih2, List.replicate_succ]

/-- C10: clamping is idempotent at the boundary in both input paths, for any number
of repetitions.  In Poll mode `n` S key-downs at scale 20 each leave the scale at 20,
and `n` W key-downs at scale 2 each leave it at 2.  In Filter mode, over any run of
frames with S held alone (no W, no Q, no SPACE key-down queued) from scale 20 every
frame runs, adjusts once and leaves 20; likewise with W held alone from scale 2. -/
theorem C10_clamp_idempotent_at_boundary (n : ℕ) (q : Bool) (fsS fsW : List FrameInput)
    (hS : ∀ f ∈ fsS, spaceDowns f.events = 0 ∧
      f.keys.S = true ∧ f.keys.W = false ∧ f.keys.Q = false)
    (hW : ∀ f ∈ fsW, spaceDowns f.events = 0 ∧
      f.keys.W = true ∧ f.keys.S = false ∧ f.keys.Q = false) :
    drain ⟨20, Mode.POLL, q⟩ (List.replicate n (Event.keydown Keycode.SDLK_s)) =
      (⟨20, Mode.POLL, q⟩, List.replicate n ⟨Mode.POLL, Keycode.SDLK_s, 20⟩) ∧
    drain ⟨2, Mode.POLL, q⟩ (List.replicate n (Event.keydown Keycode.SDLK_w)) =
      (⟨2, Mode.POLL, q⟩, List.replicate n ⟨Mode.POLL, Keycode.SDLK_w, 2⟩) ∧
    mainLoop ⟨20, Mode.FILT, false⟩ fsS =
      ⟨⟨20, Mode.FILT, false⟩, List.replicate fsS.length ⟨Mode.FILT, Keycode.SDLK_s, 20⟩,
        fsS.length⟩ ∧
    mainLoop ⟨2, Mode.FILT, false⟩ fsW =
      ⟨⟨2, Mode.FILT, false⟩, List.replicate fsW.length ⟨Mode.FILT, Keycode.SDLK_w, 2⟩,
        fsW.length⟩ :=
  ⟨drain_replicate_s_at_twenty n q, drain_replicate_w_at_two n q,
    mainLoop_s_held_at_twenty fsS hS, mainLoop_w_held_at_two fsW hW⟩

/-- An instance of C10: three key-downs in Poll mode, and two Filter frames each. -/
theorem C10_clamp_idempotent_at_boundary_witness :
    drain ⟨20, Mode.POLL, false⟩ (List.replicate 3 (Event.keydown Keycode.SDLK_s)) =
      (⟨20, Mode.POLL, false⟩, List.replicate 3 ⟨Mode.POLL, Keycode.SDLK_s, 20⟩) ∧
    drain ⟨2, Mode.POLL, false⟩ (List.replicate 3 (Event.keydown Keycode.SDLK_w)) =
      (⟨2, Mode.POLL, false⟩, List.replicate 3 ⟨Mode.POLL, Keycode.SDLK_w, 2⟩) ∧
    mainLoop ⟨20, Mode.FILT, false⟩
        [⟨[], ⟨false, false, false, true⟩⟩, ⟨[Event.other], ⟨true, false, false, true⟩⟩] =
      ⟨⟨20, Mode.FILT, false⟩, List.replicate 2 ⟨Mode.FILT, Keycode.SDLK_s, 20⟩, 2⟩ ∧
    mainLoop ⟨2, Mode.FILT, false⟩
        [⟨[], ⟨false, false, true, false⟩⟩, ⟨[Event.other], ⟨true, false, true, false⟩⟩] =
      ⟨⟨2, Mode.FILT, false⟩, List.replicate 2 ⟨Mode.FILT, Keycode.SDLK_w, 2⟩, 2⟩ :=
  C10_clamp_idempotent_at_boundary 3 false
    [⟨[], ⟨false, false, false, true⟩⟩, ⟨[Event.other], ⟨true, false, false, true⟩⟩]
    [⟨[], ⟨false, false, true, false⟩⟩, ⟨[Event.other], ⟨true, false, true, false⟩⟩]
    (by decide) (by decide)

/-! ## The rectangle -/

theorem truncToInt_eq {x : ℚ} (n : ℤ) (h0 : 0 ≤ x) (h1 : (n : ℚ) ≤ x) (h2 : x < (n : ℚ) + 1) :
    truncToInt x = n := by
  unfold truncToInt
  rw [if_pos h0, Int.floor_eq_iff]
  exact ⟨h1, h2⟩

theorem f32_tenth : f32 (1 / 10) = 13421773 / 134217728 := by
  have := f32_eq_of_near (x := 1 / 10) 13421773 (-27) (by norm_num) (by norm_num)
    (by norm_num) (by norm_num)
  norm_num at this ⊢
  exact this

theorem f32_nine_tenths : f32 (1 - 13421773 / 134217728) = 7549747 / 8388608 := by
  have := f32_eq_of_near (x := 1 - 13421773 / 134217728) 15099494 (-24) (by norm_num)
    (by norm_num) (by norm_num) (by norm_num)
  norm_num at this ⊢
  exact this

theorem f32_540 : f32 (600 * (7549747 / 8388608)) = 540 := by
  have := f32_eq_of_near (x := 600 * (7549747 / 8388608)) 8847360 (-14) (by norm_num)
    (by norm_num) (by norm_num) (by norm_num)
  norm_num at this ⊢
  exact this

theorem f32_360 : f32 (400 * (7549747 / 8388608)) = 360 := by
  have := f32_eq_of_near (x := 400 * (7549747 / 8388608)) 11796480 (-15) (by norm_num)
    (by norm_num) (by norm_num) (by norm_num)
  norm_num at this ⊢
  exact this

theorem f32_600 : f32 (600 : ℚ) = 600 := by simpa using f32_natCast 600 (by norm_num)

theorem f32_400 : f32 (400 : ℚ) = 400 := by simpa using f32_natCast 400 (by norm_num)

theorem f32_half_540 : f32 ((540 : ℚ) / 2) = 270 := by
  rw [show (540 : ℚ) / 2 = ((270 : ℕ) : ℚ) by norm_num, f32_natCast 270 (by norm_num)]
  norm_num

theorem f32_half_360 : f32 ((360 : ℚ) / 2) = 180 := by
  rw [show (360 : ℚ) / 2 = ((180 : ℕ) : ℚ) by norm_num, f32_natCast 180 (by norm_num)]
  norm_num

theorem f32_600_div_10 : f32 ((600 : ℚ) / 10) = 60 := by
  rw [show (600 : ℚ) / 10 = ((60 : ℕ) : ℚ) by norm_num, f32_natCast 60 (by norm_num)]
  norm_num

theorem f32_400_div_10 : f32 ((400 : ℚ) / 10) = 40 := by
  rw [show (400 : ℚ) / 10 = ((40 : ℕ) : ℚ) by norm_num, f32_natCast 40 (by norm_num)]
  norm_num

theorem truncToInt_natCast (n : ℕ) : truncToInt (n : ℚ) = n := by
  apply truncToInt_eq
  · positivity
  · simp
  · simp

/-- C6: for the 600 by 400 window at scale 10 with zero jitter the program computes
the rectangle `x = 270, y = 180, w = 60, h = 40`. -/
theorem C6_default_rectangle : rect 600 400 10 0 0 = ⟨270, 180, 60, 40⟩ := by
  have t270 : truncToInt 270 = 270 := by simpa using truncToInt_natCast 270
  have t180 : truncToInt 180 = 180 := by simpa using truncToInt_natCast 180
  have t60 : truncToInt 60 = 60 := by simpa using truncToInt_natCast 60
  have t40 : truncToInt 40 = 40 := by simpa using truncToInt_natCast 40
  simp only [rect, Int.cast_ofNat, zero_div, f32_zero, sub_zero, add_zero, f32_600, f32_400,
    f32_tenth, f32_nine_tenths, f32_540, f32_360, f32_half_540, f32_half_360, f32_600_div_10,
    f32_400_div_10, t270, t180, t60, t40]

theorem half_lt_f32 {x : ℚ} (hx : 0 < x) : x / 2 < f32 x := by
  have h1 := zpow_log_le_f32 hx
  have h2 : x < (2 : ℚ) ^ (Int.log 2 x + 1) := by
    have := Int.lt_zpow_succ_log_self (R := ℚ) (b := 2) (by norm_num) x
    exact_mod_cast this
  rw [zpow_add_one₀ (by norm_num)] at h2
  linarith

theorem truncToInt_mono {x y : ℚ} (hx : 0 ≤ x) (h : x ≤ y) : truncToInt x ≤ truncToInt y := by
  unfold truncToInt
  rw [if_pos hx, if_pos (hx.trans h)]
  exact Int.floor_mono h

theorem truncToInt_nonneg {x : ℚ} (hx : 0 ≤ x) : 0 ≤ truncToInt x := by
  unfold truncToInt
  rw [if_pos hx]
  exact Int.floor_nonneg.mpr hx

theorem one_le_truncToInt {x : ℚ} (hx : 1 ≤ x) : 1 ≤ truncToInt x := by
  unfold truncToInt
  rw [if_pos (by linarith)]
  exact Int.le_floor.mpr (by simpa using hx)

theorem f32_one : f32 1 = 1 := by simpa using f32_natCast 1 (by norm_num)

theorem f32_twenty : f32 20 = 20 := by simpa using f32_natCast 20 (by norm_num)

theorem jitterBound_spec (W : ℤ) (hW : 0 ≤ W) :
    0 ≤ jitterBound W ∧ 100 * jitterBound W ≤ W := by
  unfold jitterBound
  rw [Int.tdiv_eq_ediv hW (by norm_num)]
  omega

/-- With the jitter within its bound, `wI.w + rw` stays positive as a `float`. -/
theorem sum_pos (W : ℤ) (rw : ℚ) (hW : 0 < W) (hrw : |rw| ≤ (jitterBound W : ℚ)) :
    0 < f32 (W : ℚ) + rw := by
  obtain ⟨_, k2⟩ := jitterBound_spec W hW.le
  have k3 : (100 : ℚ) * (jitterBound W : ℚ) ≤ (W : ℚ) := by exact_mod_cast k2
  have hWq : (0 : ℚ) < (W : ℚ) := by exact_mod_cast hW
  have hA := half_lt_f32 hWq
  have hr := (abs_le.mp hrw).1
  linarith

theorem sum_ge_twenty (W : ℤ) (rw : ℚ) (hW : 20 ≤ W) (hrw : |rw| ≤ (jitterBound W : ℚ)) :
    20 ≤ f32 (W : ℚ) + rw := by
  obtain ⟨k1, k2⟩ := jitterBound_spec W (by omega)
  have hr := (abs_le.mp hrw).1
  rcases lt_or_le W (2 ^ 24) with c | c
  · have hA : f32 (W : ℚ) = (W : ℚ) := by
      have := f32_natCast W.toNat (by omega)
      have e : ((W.toNat : ℕ) : ℚ) = (W : ℚ) := by
        have : ((W.toNat : ℕ) : ℤ) = W := Int.toNat_of_nonneg (by omega)
        exact_mod_cast this
      rwa [e] at this
    have k3 : jitterBound W ≤ W - 20 := by omega
    have k4 : (jitterBound W : ℚ) ≤ (W : ℚ) - 20 := by exact_mod_cast k3
    rw [hA]; linarith
  · have k3 : (100 : ℚ) * (jitterBound W : ℚ) ≤ (W : ℚ) := by exact_mod_cast k2
    have hWq : ((2 : ℚ) ^ 24) ≤ (W : ℚ) := by exact_mod_cast c
    have hA := half_lt_f32 (show (0 : ℚ) < (W : ℚ) by linarith [show (0 : ℚ) < 2 ^ 24 by norm_num])
    norm_num at hWq
    linarith

theorem extent_nonneg (W : ℤ) (s rw : ℚ) (hW : 0 < W) (hs : 0 < s)
    (hrw : |rw| ≤ (jitterBound W : ℚ)) :
    0 ≤ truncToInt (f32 (f32 (f32 (W : ℚ) + rw) / s)) := by
  apply truncToInt_nonneg
  apply f32_nonneg
  apply div_nonneg _ hs.le
  exact f32_nonneg (sum_pos W rw hW hrw).le

theorem extent_pos (W : ℤ) (s rw : ℚ) (hW : 20 ≤ W) (hs : 0 < s) (hs2 : s ≤ 20)
    (hrw : |rw| ≤ (jitterBound W : ℚ)) :
    0 < truncToInt (f32 (f32 (f32 (W : ℚ) + rw) / s)) := by
  have h1 : 20 ≤ f32 (f32 (W : ℚ) + rw) := by
    have := f32_mono (by norm_num) (sum_ge_twenty W rw hW hrw)
    rwa [f32_twenty] at this
  have h2 : 1 ≤ f32 (f32 (W : ℚ) + rw) / s := by
    rw [le_div_iff₀ hs]; linarith
  have h3 : 1 ≤ f32 (f32 (f32 (W : ℚ) + rw) / s) := by
    have := f32_mono (by norm_num) h2
    rwa [f32_one] at this
  have := one_le_truncToInt h3
  omega

/-- C5, as the code has it: for window dimensions `W, H > 0`, a scale in `[2, 20]`
and jitter within `wI.w/100`, `wI.h/100`, the stored width and height are never
negative, and they are strictly positive once the dimension is at least 20. -/
theorem C5_extent_positive_from_twenty (W H : ℤ) (s rw rh : ℚ) (hW : 0 < W) (hH : 0 < H)
    (hs : 2 ≤ s) (hs2 : s ≤ 20) (hrw : |rw| ≤ (jitterBound W : ℚ))
    (hrh : |rh| ≤ (jitterBound H : ℚ)) :
    0 ≤ (rect W H s rw rh).w ∧ 0 ≤ (rect W H s rw rh).h ∧
    (20 ≤ W → 0 < (rect W H s rw rh).w) ∧ (20 ≤ H → 0 < (rect W H s rw rh).h) :=
  ⟨extent_nonneg W s rw hW (by linarith) hrw, extent_nonneg H s rh hH (by linarith) hrh,
    fun h => extent_pos W s rw h (by linarith) hs2 hrw,
    fun h => extent_pos H s rh h (by linarith) hs2 hrh⟩

/-! ## Holding W in Filter mode -/

theorem frame_w_held (n : ℕ) (f : FrameInput) (hn : 3 ≤ n) (hn2 : n ≤ 20)
    (h : spaceDowns f.events = 0 ∧ f.keys.W = true ∧ f.keys.S = false ∧ f.keys.Q = false) :
    frame ⟨(n : ℚ), Mode.FILT, false⟩ f =
      (⟨((n - 1 : ℕ) : ℚ), Mode.FILT, false⟩,
        [⟨Mode.FILT, Keycode.SDLK_w, ((n - 1 : ℕ) : ℚ)⟩]) := by
  obtain ⟨h1, h2, h3, h4⟩ := h
  have hi : increaseSize (n : ℚ) = ((n - 1 : ℕ) : ℚ) := by
    rw [increaseSize_natCast n (by omega) (by omega), Nat.max_eq_left (by omega)]
  simp [frame, drain_filt f.events ⟨(n : ℚ), Mode.FILT, false⟩ rfl h1, filterKeys, filterQ,
    filterW, filterS, h2, h3, h4, hi]

theorem mainLoop_w_held (fs : List FrameInput) (n : ℕ) (hn : fs.length + 2 ≤ n) (hn2 : n ≤ 20)
    (h : ∀ f ∈ fs, spaceDowns f.events = 0 ∧
      f.keys.W = true ∧ f.keys.S = false ∧ f.keys.Q = false) :
    (mainLoop ⟨(n : ℚ), Mode.FILT, false⟩ fs).state =
        ⟨((n - fs.length : ℕ) : ℚ), Mode.FILT, false⟩ ∧
      (mainLoop ⟨(n : ℚ), Mode.FILT, false⟩ fs).frames = fs.length := by
  induction fs generalizing n with
  | nil => simp [mainLoop]
  | cons f fs ih =>
    simp only [List.length_cons] at hn
    have hf := frame_w_held n f (by omega) hn2 (h f (List.mem_cons_self _ _))
    obtain ⟨i1, i2⟩ := ih (n - 1) (by omega) (by omega)
      (fun g hg => h g (List.mem_cons_of_mem _ hg))
    simp only [mainLoop, hf, if_true, i1, i2, List.length_cons]
    refine ⟨?_, trivial⟩
    rw [show n - 1 - fs.length = n - (fs.length + 1) by omega]

theorem extent_antitone (W : ℤ) (s t : ℚ) (hW : 0 ≤ W) (ht : 0 < t) (hts : t ≤ s) :
    truncToInt (f32 (f32 (f32 (W : ℚ) + 0) / s)) ≤
      truncToInt (f32 (f32 (f32 (W : ℚ) + 0) / t)) := by
  have hWq : (0 : ℚ) ≤ (W : ℚ) := by exact_mod_cast hW
  have hB : 0 ≤ f32 (f32 (W : ℚ) + 0) := by
    rw [add_zero]; exact f32_nonneg (f32_nonneg hWq)
  have hs : 0 < s := lt_of_lt_of_le ht hts
  have h1 : f32 (f32 (W : ℚ) + 0) / s ≤ f32 (f32 (W : ℚ) + 0) / t :=
    div_le_div_of_nonneg_left hB ht hts
  have h0 : 0 ≤ f32 (f32 (W : ℚ) + 0) / s := div_nonneg hB hs.le
  exact truncToInt_mono (f32_nonneg h0) (f32_mono h0 h1)

/-- C7, as the code has it: in Filter mode, over a run of frames with W held alone
(no S, no Q, no SPACE key-down queued) that starts at a whole scale `n ≤ 20` and does
not reach the clamp at 2, every frame runs and lowers the scale by exactly 1, so the
jitter-free size `W/s`, `H/s` grows strictly from each frame to the next, and the
stored jitter-free width and height never shrink. -/
theorem C7_holding_w_grows_rectangle (W H : ℤ) (n : ℕ) (fs : List FrameInput) (i : ℕ)
    (hW : 0 < W) (hH : 0 < H) (hn : fs.length + 2 ≤ n) (hn2 : n ≤ 20) (hi : i < fs.length)
    (h : ∀ f ∈ fs, spaceDowns f.events = 0 ∧
      f.keys.W = true ∧ f.keys.S = false ∧ f.keys.Q = false) :
    (mainLoop ⟨(n : ℚ), Mode.FILT, false⟩ (fs.take (i + 1))).frames = i + 1 ∧
    (mainLoop ⟨(n : ℚ), Mode.FILT, false⟩ (fs.take (i + 1))).state.Square_scale =
      (mainLoop ⟨(n : ℚ), Mode.FILT, false⟩ (fs.take i)).state.Square_scale - 1 ∧
    2 ≤ (mainLoop ⟨(n : ℚ), Mode.FILT, false⟩ (fs.take (i + 1))).state.Square_scale ∧
    (W : ℚ) / (mainLoop ⟨(n : ℚ), Mode.FILT, false⟩ (fs.take i)).state.Square_scale <
      (W : ℚ) / (mainLoop ⟨(n : ℚ), Mode.FILT, false⟩ (fs.take (i + 1))).state.Square_scale ∧
    (H : ℚ) / (mainLoop ⟨(n : ℚ), Mode.FILT, false⟩ (fs.take i)).state.Square_scale <
      (H : ℚ) / (mainLoop ⟨(n : ℚ), Mode.FILT, false⟩ (fs.take (i + 1))).state.Square_scale ∧
    (rect W H (mainLoop ⟨(n : ℚ), Mode.FILT, false⟩ (fs.take i)).state.Square_scale 0 0).w ≤
      (rect W H
        (mainLoop ⟨(n : ℚ), Mode.FILT, false⟩ (fs.take (i + 1))).state.Square_scale 0 0).w ∧
    (rect W H (mainLoop ⟨(n : ℚ), Mode.FILT, false⟩ (fs.take i)).state.Square_scale 0 0).h ≤
      (rect W H
        (mainLoop ⟨(n : ℚ), Mode.FILT, false⟩ (fs.take (i + 1))).state.Square_scale 0 0).h := by
  have l1 : (fs.take i).length = i := by rw [List.length_take]; omega
  have l2 : (fs.take (i + 1)).length = i + 1 := by rw [List.length_take]; omega
  obtain ⟨a1, _⟩ := mainLoop_w_held (fs.take i) n (by omega) hn2
    (fun g hg => h g (List.mem_of_mem_take hg))
  obtain ⟨b1, b2⟩ := mainLoop_w_held (fs.take (i + 1)) n (by omega) hn2
    (fun g hg => h g (List.mem_of_mem_take hg))
  rw [a1, b1, b2, l1, l2]
  have e1 : ((n - (i + 1) : ℕ) : ℚ) = ((n - i : ℕ) : ℚ) - 1 := by
    rw [show n - (i + 1) = n - i - 1 by omega, Nat.cast_sub (by omega)]
    simp
  have p2 : (2 : ℚ) ≤ ((n - (i + 1) : ℕ) : ℚ) := by
    have : 2 ≤ n - (i + 1) := by omega
    exact_mod_cast this
  have hWq : (0 : ℚ) < (W : ℚ) := by exact_mod_cast hW
  have hHq : (0 : ℚ) < (H : ℚ) := by exact_mod_cast hH
  have hlt : ((n - (i + 1) : ℕ) : ℚ) < ((n - i : ℕ) : ℚ) := by rw [e1]; linarith
  have hpos : (0 : ℚ) < ((n - (i + 1) : ℕ) : ℚ) := by linarith
  refine ⟨rfl, e1, p2, ?_, ?_, ?_, ?_⟩
  · exact div_lt_div_of_pos_left hWq hpos hlt
  · exact div_lt_div_of_pos_left hHq hpos hlt
  · exact extent_antitone W _ _ hW.le hpos hlt.le
  · exact extent_antitone H _ _ hH.le hpos hlt.le

/-- An instance of the amended C7: the second of two frames with W held, from scale
10, for the 600 by 400 window. -/
theorem C7_holding_w_grows_rectangle_witness :
    (mainLoop ⟨((10 : ℕ) : ℚ), Mode.FILT, false⟩
      (List.take (1 + 1) [⟨[], ⟨false, false, true, false⟩⟩,
        ⟨[Event.keydown Keycode.SDLK_w], ⟨false, false, true, false⟩⟩])).frames = 1 + 1 ∧
    (mainLoop ⟨((10 : ℕ) : ℚ), Mode.FILT, false⟩
      (List.take (1 + 1) [⟨[], ⟨false, false, true, false⟩⟩,
        ⟨[Event.keydown Keycode.SDLK_w], ⟨false, false, true, false⟩⟩])).state.Square_scale =
      (mainLoop ⟨((10 : ℕ) : ℚ), Mode.FILT, false⟩
      (List.take 1 [⟨[], ⟨false, false, true, false⟩⟩,
        ⟨[Event.keydown Keycode.SDLK_w], ⟨false, false, true, false⟩⟩])).state.Square_scale - 1 ∧
    2 ≤ (mainLoop ⟨((10 : ℕ) : ℚ), Mode.FILT, false⟩
      (List.take (1 + 1) [⟨[], ⟨false, false, true, false⟩⟩,
        ⟨[Event.keydown Keycode.SDLK_w], ⟨false, false, true, false⟩⟩])).state.Square_scale ∧
    ((600 : ℤ) : ℚ) / (mainLoop ⟨((10 : ℕ) : ℚ), Mode.FILT, false⟩
      (List.take 1 [⟨[], ⟨false, false, true, false⟩⟩,
        ⟨[Event.keydown Keycode.SDLK_w], ⟨false, false, true, false⟩⟩])).state.Square_scale <
      ((600 : ℤ) : ℚ) / (mainLoop ⟨((10 : ℕ) : ℚ), Mode.FILT, false⟩
      (List.take (1 + 1) [⟨[], ⟨false, false, true, false⟩⟩,
        ⟨[Event.keydown Keycode.SDLK_w], ⟨false, false, true, false⟩⟩])).state.Square_scale ∧
    ((400 : ℤ) : ℚ) / (mainLoop ⟨((10 : ℕ) : ℚ), Mode.FILT, false⟩
      (List.take 1 [⟨[], ⟨false, false, true, false⟩⟩,
        ⟨[Event.keydown Keycode.SDLK_w], ⟨false, false, true, false⟩⟩])).state.Square_scale <
      ((400 : ℤ) : ℚ) / (mainLoop ⟨((10 : ℕ) : ℚ), Mode.FILT, false⟩
      (List.take (1 + 1) [⟨[], ⟨false, false, true, false⟩⟩,
        ⟨[Event.keydown Keycode.SDLK_w], ⟨false, false, true, false⟩⟩])).state.Square_scale ∧
    (rect 600 400 (mainLoop ⟨((10 : ℕ) : ℚ), Mode.FILT, false⟩
      (List.take 1 [⟨[], ⟨false, false, true, false⟩⟩,
        ⟨[Event.keydown Keycode.SDLK_w], ⟨false, false, true, false⟩⟩])).state.Square_scale 0 0).w ≤
      (rect 600 400 (mainLoop ⟨((10 : ℕ) : ℚ), Mode.FILT, false⟩
      (List.take (1 + 1) [⟨[], ⟨false, false, true, false⟩⟩,
        ⟨[Event.keydown Keycode.SDLK_w], ⟨false, false, true, false⟩⟩])).state.Square_scale 0 0).w ∧
    (rect 600 400 (mainLoop ⟨((10 : ℕ) : ℚ), Mode.FILT, false⟩
      (List.take 1 [⟨[], ⟨false, false, true, false⟩⟩,
        ⟨[Event.keydown Keycode.SDLK_w], ⟨false, false, true, false⟩⟩])).state.Square_scale 0 0).h ≤
      (rect 600 400 (mainLoop ⟨((10 : ℕ) : ℚ), Mode.FILT, false⟩
      (List.take (1 + 1) [⟨[], ⟨false, false, true, false⟩⟩,
        ⟨[Event.keydown Keycode.SDLK_w], ⟨false, false, true, false⟩⟩])).state.Square_scale
        0 0).h :=
  C7_holding_w_grows_rectangle 600 400 10
    [⟨[], ⟨false, false, true, false⟩⟩,
      ⟨[Event.keydown Keycode.SDLK_w], ⟨false, false, true, false⟩⟩] 1
    (by decide) (by decide) (by decide) (by decide) (by decide) (by decide)

theorem f32_600_div_9 : f32 ((600 : ℚ) / 9) = 8738133 / 131072 := by
  have := f32_eq_of_near (x := (600 : ℚ) / 9) 8738133 (-17) (by norm_num)
    (by norm_num) (by norm_num) (by norm_num)
  norm_num at this ⊢
  exact this

theorem f32_400_div_9 : f32 ((400 : ℚ) / 9) = 2912711 / 65536 := by
  have := f32_eq_of_near (x := (400 : ℚ) / 9) 11650844 (-18) (by norm_num)
    (by norm_num) (by norm_num) (by norm_num)
  norm_num at this ⊢
  exact this

/-- C7 fails as stated: in Filter mode at scale 10 with W held, one frame takes the
scale to 9, and for the 600 by 400 window the jitter-free rectangle grows from
60 by 40 to 66 by 44 instead of shrinking. -/
theorem C7_counterexample :
    (frame ⟨10, Mode.FILT, false⟩ ⟨[], ⟨false, false, true, false⟩⟩).1.Square_scale = 9 ∧
    (rect 600 400 10 0 0).w = 60 ∧ (rect 600 400 10 0 0).h = 40 ∧
    (rect 600 400 9 0 0).w = 66 ∧ (rect 600 400 9 0 0).h = 44 := by
  have h10 : increaseSize 10 = 9 := by
    have := increaseSize_natCast 10 (by norm_num) (by norm_num)
    norm_num at this; exact this
  have t60 : truncToInt 60 = 60 := by simpa using truncToInt_natCast 60
  have t40 : truncToInt 40 = 40 := by simpa using truncToInt_natCast 40
  have t66 : truncToInt (8738133 / 131072) = 66 :=
    truncToInt_eq 66 (by norm_num) (by norm_num) (by norm_num)
  have t44 : truncToInt (2912711 / 65536) = 44 :=
    truncToInt_eq 44 (by norm_num) (by norm_num) (by norm_num)
  refine ⟨?_, ?_, ?_, ?_, ?_⟩
  · simp [frame, drain, filterKeys, filterQ, filterW, filterS, h10]
  · simp only [rect, Int.cast_ofNat, add_zero, f32_600, f32_600_div_10, t60]
  · simp only [rect, Int.cast_ofNat, add_zero, f32_400, f32_400_div_10, t40]
  · simp only [rect, Int.cast_ofNat, add_zero, f32_600, f32_600_div_9, t66]
  · simp only [rect, Int.cast_ofNat, add_zero, f32_400, f32_400_div_9, t44]

/-- C5 fails as stated: for a 1 by 1 window at scale 2 with zero jitter, all within
the stated ranges, the stored width and height are `(int)0.5 = 0`. -/
theorem C5_counterexample :
    (0 : ℤ) < 1 ∧ (2 : ℚ) ≤ 2 ∧ (2 : ℚ) ≤ 20 ∧ |(0 : ℚ)| ≤ (jitterBound 1 : ℚ) ∧
    (rect 1 1 2 0 0).w = 0 ∧ (rect 1 1 2 0 0).h = 0 := by
  have hhalf : f32 ((1 : ℚ) / 2) = 1 / 2 := by
    have := f32_representable 1 (-1) (by norm_num)
    norm_num at this ⊢
    exact this
  have t0 : truncToInt (1 / 2) = 0 := truncToInt_eq 0 (by norm_num) (by norm_num) (by norm_num)
  refine ⟨by norm_num, by norm_num, by norm_num,
    by rw [show jitterBound 1 = 0 by decide]; norm_num, ?_, ?_⟩
  · simp only [rect, Int.cast_one, add_zero, f32_one, hhalf, t0]
  · simp only [rect, Int.cast_one, add_zero, f32_one, hhalf, t0]

/-- An instance of the amended C5: the default 600 by 400 window at scale 10 with
jitter 6 and -4. -/
theorem C5_extent_positive_from_twenty_witness :
    0 ≤ (rect 600 400 10 6 (-4)).w ∧ 0 ≤ (rect 600 400 10 6 (-4)).h ∧
    ((20 : ℤ) ≤ 600 → 0 < (rect 600 400 10 6 (-4)).w) ∧
    ((20 : ℤ) ≤ 400 → 0 < (rect 600 400 10 6 (-4)).h) :=
  C5_extent_positive_from_twenty 600 400 10 6 (-4) (by norm_num) (by norm_num) (by norm_num)
    (by norm_num)
    (by rw [show jitterBound 600 = 6 by decide]; norm_num)
    (by rw [show jitterBound 400 = 4 by decide]; norm_num)

/-! ## Window arguments -/

/-- C9, as the code has it: each of `x`, `y`, `w`, `h` keeps its default (50, 50, 600,
400) exactly when its positional argument is absent; when the argument is present the
parameter is `atoi` of it, which is 0 for a non-numeric argument. -/
theorem C9_args_default_only_when_absent (argv : List String) :
    ((parseArgs argv).x = match argv[1]? with | none => 50 | some a => atoi a) ∧
    ((parseArgs argv).y = match argv[2]? with | none => 50 | some a => atoi a) ∧
    ((parseArgs argv).w = match argv[3]? with | none => 600 | some a => atoi a) ∧
    ((parseArgs argv).h = match argv[4]? with | none => 400 | some a => atoi a) := by
  rcases argv with _ | ⟨a0, _ | ⟨a1, _ | ⟨a2, _ | ⟨a3, _ | ⟨a4, r⟩⟩⟩⟩⟩ <;> simp [parseArgs]

/-- C9 fails as stated: with the non-numeric argument `abc` in first position, whose
parse yields 0, `wI.x` is 0 and not the default 50; the absent ones keep theirs. -/
theorem C9_counterexample :
    atoi "abc" = 0 ∧
    parseArgs ["fluid-and-transparent", "abc"] = ⟨0, 50, 600, 400⟩ ∧
    (parseArgs ["fluid-and-transparent", "abc"]).x ≠ 50 := by
  decide

end FluidAndTransparent
